import Mathlib

/-!
Verification development for the OpenBB AI-trading CLI plugin
(`openbb_cli/controllers/ai_controller.py` and
`openbb_cli/controllers/trading_controller.py`).

The Python source is shallowly embedded below: pure string/number
manipulation becomes Lean functions, the regex engine used by
`re.search` on the four fixed trading-command patterns is embedded as a
small backtracking matcher with Python's leftmost/greedy preference
order, and the external effects (OpenBB quote/chain fetches, Alpaca
HTTP calls, the LLM provider, `input()`) become explicit parameters.
Machine floats of the source are modelled as rationals.
-/

/-! ### Python character and string primitives (ASCII semantics) -/

/-- Python `\s` / `str.strip` whitespace class, restricted to ASCII:
space, tab, newline, carriage return, vertical tab, form feed. -/
def isSpaceChar (c : Char) : Bool :=
  c = ' ' || c = '\t' || c = '\n' || c = '\r' || c = '\x0b' || c = '\x0c'

/-- Python `\d` / `str.isdigit` digit class, restricted to ASCII `0-9`. -/
def isDigitChar (c : Char) : Bool :=
  48 ≤ c.toNat && c.toNat ≤ 57

/-- The regex class `[A-Za-z]`. -/
def isAlphaChar (c : Char) : Bool :=
  (65 ≤ c.toNat && c.toNat ≤ 90) || (97 ≤ c.toNat && c.toNat ≤ 122)

/-- ASCII lowercase mapping on code points: `A-Z` shifts by 32. -/
def lowerN (n : Nat) : Nat :=
  if 65 ≤ n ∧ n ≤ 90 then n + 32 else n

/-- ASCII uppercase mapping on code points: `a-z` shifts by 32. -/
def upperN (n : Nat) : Nat :=
  if 97 ≤ n ∧ n ≤ 122 then n - 32 else n

/-- Python `str.lower` on one character (ASCII). -/
def pyToLower (c : Char) : Char := Char.ofNat (lowerN c.toNat)

/-- Python `str.upper` on one character (ASCII). -/
def pyToUpper (c : Char) : Char := Char.ofNat (upperN c.toNat)

/-- Python `str.lower` (ASCII). -/
def pyLower (s : String) : String := ⟨s.data.map pyToLower⟩

/-- Python `str.upper` (ASCII). -/
def pyUpper (s : String) : String := ⟨s.data.map pyToUpper⟩

/-- Python `str.strip()` on a character list. -/
def pyStripL (l : List Char) : List Char :=
  ((l.dropWhile isSpaceChar).reverse.dropWhile isSpaceChar).reverse

/-- Python `str.strip()`. -/
def pyStrip (s : String) : String := ⟨pyStripL s.data⟩

/-- Python `int(...)` on a string of decimal digits. -/
def natOfDigits (ds : List Char) : Nat :=
  ds.foldl (fun n c => n * 10 + (c.toNat - 48)) 0

/-- `True` iff Python `s.isdigit()` holds: nonempty and all digits (ASCII). -/
def isDigitStr (l : List Char) : Bool :=
  !l.isEmpty && l.all isDigitChar

/-- `xs` occurs contiguously inside `ys` (Python substring). -/
def SubSeg (xs ys : List Char) : Prop :=
  ∃ pre post, ys = pre ++ xs ++ post

/-- `xs` is a (contiguous) tail segment of `ys`. -/
def TailSeg (xs ys : List Char) : Prop :=
  ∃ pre, ys = pre ++ xs

/-- Python `int()` truncation of a rational toward zero. -/
def pyTrunc (q : ℚ) : ℤ :=
  if q < 0 then -(Rat.floor (-q)) else Rat.floor q

/-- Decimal digit character for `n % 10`. -/
def digitChar10 (n : Nat) : Char := Char.ofNat (48 + n % 10)

/-- Fuel-driven decimal rendering: `decDigitsAux f n` is the decimal
representation of `n` without leading zeros, provided `n < 10 ^ f`
(single digit for `n < 10`). -/
def decDigitsAux : Nat → Nat → List Char
  | 0, _ => []
  | f + 1, n =>
    if n < 10 then [digitChar10 n]
    else decDigitsAux f (n / 10) ++ [digitChar10 n]

/-- Decimal representation of a natural number (no leading zeros). -/
def decDigits (n : Nat) : List Char := decDigitsAux (n + 1) n

/-- Python `f-string` formatting `08d` applied to an integer: decimal
representation left-padded with `0` to a minimum total width of 8
(the sign, when present, counts toward the width). -/
def pyFormat08d (z : ℤ) : String :=
  let ds := decDigits z.natAbs
  if z < 0 then
    ⟨'-' :: (List.replicate (7 - ds.length) '0' ++ ds)⟩
  else
    ⟨List.replicate (8 - ds.length) '0' ++ ds⟩

/-! ### A backtracking regex matcher for the fixed trading patterns

The four patterns of `parse_trading_command` use only: literals,
alternation, concatenation, greedy `+` over a character class
(optionally capturing), and greedy optional groups.  `RE.run` lists all
matches of a pattern against a prefix of the input in exactly Python's
backtracking preference order (earlier alternatives first, longer
repetitions first, optional groups present first); `RE.search` scans
start positions left to right like `re.search`. -/

inductive RE where
  | lit (cs : List Char)
  | plus (p : Char → Bool)
  | cgroup (idx : Nat) (p : Char → Bool)
  | opt (r : RE)
  | alt (r1 r2 : RE)
  | cat (r1 r2 : RE)

/-- All ways `r` can match a prefix of `s`, in Python preference order.
Each element is the list of `(group index, captured characters)` pairs
together with the unconsumed remainder of `s`. -/
def RE.run : RE → List Char → List (List (Nat × List Char) × List Char)
  | .lit cs, s =>
    if cs.isPrefixOf s then [([], s.drop cs.length)] else []
  | .plus p, s =>
    let m := (s.takeWhile p).length
    (List.range m).map (fun j => ([], s.drop (m - j)))
  | .cgroup i p, s =>
    let m := (s.takeWhile p).length
    (List.range m).map (fun j => ([(i, s.take (m - j))], s.drop (m - j)))
  | .opt r, s => r.run s ++ [([], s)]
  | .alt r1 r2, s => r1.run s ++ r2.run s
  | .cat r1 r2, s =>
    (r1.run s).flatMap (fun cr =>
      (r2.run cr.2).map (fun cr2 => (cr.1 ++ cr2.1, cr2.2)))

/-- `re.search`: try each start position left to right, and at the first
position where the pattern matches return the captures of the first
match in preference order. -/
def RE.search (r : RE) (s : List Char) : Option (List (Nat × List Char)) :=
  match s with
  | [] =>
    match r.run [] with
    | cr :: _ => some cr.1
    | [] => none
  | c :: t =>
    match r.run (c :: t) with
    | cr :: _ => some cr.1
    | [] => RE.search r t

/-- Concatenation of a list of regexes (empty list matches the empty
string). -/
def reSeq (rs : List RE) : RE := rs.foldr .cat (.lit [])

/-- `(?:buy|purchase|long)` resp. `(?:sell|short)`. -/
def reWords (ws : List String) : RE :=
  match ws with
  | [] => .lit []
  | [w] => .lit w.data
  | w :: rest => .alt (.lit w.data) (reWords rest)

/-- `\s+` -/
def reWs : RE := .plus isSpaceChar

/-- `(?:share(?:s)?\s+(?:of\s+)?)?` -/
def reShareOf : RE :=
  .opt (reSeq [.lit "share".data, .opt (.lit "s".data), reWs,
               .opt (reSeq [.lit "of".data, reWs])])

/-- `(?:\s+share(?:s)?)?` -/
def reTrailShares : RE :=
  .opt (reSeq [reWs, .lit "share".data, .opt (.lit "s".data)])

/-- First buy/sell pattern shape:
`HEAD\s+(\d+)\s+(?:share(?:s)?\s+(?:of\s+)?)?([A-Za-z]+)(?:\s+share(?:s)?)?` -/
def rePattern1 (head : RE) : RE :=
  reSeq [head, reWs, .cgroup 1 isDigitChar, reWs, reShareOf,
         .cgroup 2 isAlphaChar, reTrailShares]

/-- Second buy/sell pattern shape:
`HEAD\s+([A-Za-z]+)\s+(\d+)\s+share(?:s)?` -/
def rePattern2 (head : RE) : RE :=
  reSeq [head, reWs, .cgroup 1 isAlphaChar, reWs, .cgroup 2 isDigitChar,
         reWs, .lit "share".data, .opt (.lit "s".data)]

/-- `(?:buy|purchase|long)` -/
def reBuyHead : RE := reWords ["buy", "purchase", "long"]

/-- `(?:sell|short)` -/
def reSellHead : RE := reWords ["sell", "short"]

def buyPattern1 : RE := rePattern1 reBuyHead
def buyPattern2 : RE := rePattern2 reBuyHead
def sellPattern1 : RE := rePattern1 reSellHead
def sellPattern2 : RE := rePattern2 reSellHead

/-! ### `parse_trading_command` -/

/-- The built-in company-name-to-ticker map of `parse_trading_command`. -/
def company_to_ticker : List (String × String) :=
  [("apple", "AAPL"), ("microsoft", "MSFT"), ("google", "GOOGL"),
   ("alphabet", "GOOGL"), ("amazon", "AMZN"), ("meta", "META"),
   ("facebook", "META"), ("netflix", "NFLX"), ("tesla", "TSLA"),
   ("nvidia", "NVDA"), ("amd", "AMD"), ("intel", "INTC")]

/-- `match.groups()[i-1]` for our two-group patterns. -/
def capLookup (caps : List (Nat × List Char)) (i : Nat) : Option (List Char) :=
  (caps.find? (fun c => c.1 == i)).map (fun c => c.2)

/-- The body executed by `parse_trading_command` when a pattern matched:
unpack the two groups, swap them unless the first is the quantity
(`groups[0].isdigit()`), normalise the symbol via `strip().lower()`,
map a company name to its ticker (falling back to `upper()`), and
convert the quantity with `int(...)`. -/
def applyGroups (action : String) (caps : List (Nat × List Char)) :
    Option (String × String × Nat) :=
  match capLookup caps 1, capLookup caps 2 with
  | some g1, some g2 =>
    let qs := if isDigitStr g1 then (g1, g2) else (g2, g1)
    let symbol : String := pyLower (pyStrip ⟨qs.2⟩)
    let symbol := (company_to_ticker.lookup symbol).getD (pyUpper symbol)
    some (action, symbol, natOfDigits qs.1)
  | _, _ => none

/-- One iteration of the pattern loop: `re.search(pattern, text.lower())`
followed by the group unpacking (the loop falls through to the next
pattern when there is no match). -/
def tryPattern (r : RE) (action : String) (low : List Char) :
    Option (String × String × Nat) :=
  (r.search low).bind (applyGroups action)

/-- The pattern loops of `AIController.parse_trading_command`, applied
to the already-lowercased text: the buy patterns are tried in order,
then the sell patterns; the first pattern that matches (and unpacks)
wins.  Returns `(action, symbol, quantity)`. -/
def parseOnLower (low : List Char) : Option (String × String × Nat) :=
  match tryPattern buyPattern1 "buy" low with
  | some r => some r
  | none =>
    match tryPattern buyPattern2 "buy" low with
    | some r => some r
    | none =>
      match tryPattern sellPattern1 "sell" low with
      | some r => some r
      | none => tryPattern sellPattern2 "sell" low

/-- `AIController.parse_trading_command` proper: all matching happens on
`text.lower()`. -/
def parse_trading_command (text : String) : Option (String × String × Nat) :=
  parseOnLower (pyLower text).data

example : parse_trading_command "buy 2 shares of apple" = some ("buy", "AAPL", 2) := by decide
example : parse_trading_command "Sell 10 TSLA" = some ("sell", "TSLA", 10) := by decide
example : parse_trading_command "purchase msft 3 shares" = some ("buy", "MSFT", 3) := by decide
example : parse_trading_command "what is the weather" = none := by decide

/-! ### `TradingController` (Alpaca REST wrapper)

Network effects are passed in explicitly: `place_order` takes the
outcome of the `requests.post` call (`.ok status` is a successful JSON
response with the given order status; `.error msg` is a
`RequestException`), and the positions endpoint becomes a map from
symbol to the optional position JSON (an association list, since
`get_position` returns `None` exactly on a request error). -/

/-- The data sent to (and echoed in the response of) `POST /orders`. -/
structure OrderRequest where
  symbol : String
  qty : Nat
  side : String
deriving DecidableEq, Repr

/-- Return value of `TradingController.place_order`: either the parsed
JSON of a successful response, or the `{"error": msg}` dictionary built
in the `except RequestException` handler. -/
inductive OrderResponse where
  | okDict (req : OrderRequest) (status : String)
  | errDict (msg : String)
deriving DecidableEq, Repr

/-- `TradingController.place_order`: posts the order; on a
`RequestException` prints an error and returns `{"error": error_msg}`
(a dictionary, never `None`). -/
def place_order (net : Except String String) (symbol : String) (qty : Nat)
    (side : String) : OrderResponse :=
  match net with
  | .ok status => .okDict ⟨symbol, qty, side⟩ status
  | .error e => .errDict ("Error placing order: " ++ e)

/-- `result.get("error")` on a `place_order` result. -/
def orderRespError : OrderResponse → Option String
  | .okDict _ _ => none
  | .errDict m => some m

/-- Python truthiness of `result.get("error")` (absent key → `None` →
falsy; an error message is falsy only when it is the empty string). -/
def pyTruthyOptStr : Option String → Bool
  | none => false
  | some s => s ≠ ""

/-- A position JSON as an association list; `get_position` yields `none`
on a request error (no position). -/
def Positions : Type := String → Option (List (String × ℚ))

/-- `float(position.get("qty", 0))`. -/
def positionQty (d : List (String × ℚ)) : ℚ := (d.lookup "qty").getD 0

/-- `AIController.handle_trading_command`: parse the text; for a sell,
check the position and its quantity before placing the order; for a
buy, place the order directly; return `None` when no trading command
was parsed or a sell check failed. -/
def handle_trading_command (pos : Positions) (net : Except String String)
    (text : String) : Option OrderResponse :=
  match parse_trading_command text with
  | none => none
  | some (side, symbol, qty) =>
    if side == "sell" then
      match pos symbol with
      | none => none
      | some position =>
        if position.isEmpty then none
        else if positionQty position < (qty : ℚ) then none
        else some (place_order net symbol qty side)
    else some (place_order net symbol qty side)

/-! ### Market data (`get_stock_data`, `get_option_chain`)

`obb.equity.price.quote(...)` is modelled by its outcome: an exception
(`.error`), or `results` that are absent, a list of rows, or a single
row.  A row models the attributes accessed by `get_stock_data`; an
absent `close` and `price` attribute makes the extraction raise, which
the source catches, so `none` is returned. -/

structure StockRow where
  close : Option ℚ
  price : Option ℚ
  change_percent : Option ℚ
  volume : Option ℤ
deriving DecidableEq, Repr

inductive QuoteResults where
  | absent
  | list (rows : List StockRow)
  | single (row : StockRow)
deriving DecidableEq, Repr

/-- The dictionary returned by `get_stock_data` on success. -/
structure StockData where
  symbol : String
  price : ℚ
  change_percent : Option ℚ
  volume : Option ℤ
deriving DecidableEq, Repr

/-- Extract the fields of the quote row as `get_stock_data` does;
`none` models the `AttributeError` path (neither `close` nor `price`
exists) which the surrounding `try` turns into a `None` return. -/
def extractStockData (symbol : String) (row : StockRow) : Option StockData :=
  match row.close, row.price with
  | some c, _ => some ⟨symbol, c, row.change_percent, row.volume⟩
  | none, some p => some ⟨symbol, p, row.change_percent, row.volume⟩
  | none, none => none

/-- `AIController.get_stock_data`. -/
def get_stock_data (quote : Except String QuoteResults) (symbol : String) :
    Option StockData :=
  match quote with
  | .error _ => none
  | .ok .absent => none
  | .ok (.list []) => none
  | .ok (.list (row :: _)) => extractStockData symbol row
  | .ok (.single row) => extractStockData symbol row

/-- `AIController.get_stock_price`. -/
def get_stock_price (quote : Except String QuoteResults) (symbol : String) :
    Option ℚ :=
  (get_stock_data quote symbol).map (fun d => d.price)

/-! ### Option chains and `validate_and_enrich_trade_plan`

`chain_data` (a pandas frame in the source) becomes a list of rows with
the columns the code touches; `YYYY-MM-DD` expiration strings are
compared with Python string comparison, i.e. lexicographically by code
point. -/

structure ChainRow where
  expiration : String
  type : String
  strike : ℚ
  last_price : ℚ
deriving DecidableEq, Repr

/-- Python `<=` on strings: lexicographic by code point. -/
def strLeB : List Char → List Char → Bool
  | [], _ => true
  | _ :: _, [] => false
  | x :: xs, y :: ys =>
    if x.toNat < y.toNat then true
    else if y.toNat < x.toNat then false
    else strLeB xs ys

/-- Python `<=` on strings, as a decidable relation. -/
def pyStrLe (a b : String) : Prop := strLeB a.data b.data = true

instance : DecidableRel pyStrLe := fun a b => by
  unfold pyStrLe; infer_instance

/-- Python `sorted(list(set(xs)))` for strings. -/
def pySortedSetStr (xs : List String) : List String :=
  xs.dedup.insertionSort pyStrLe

/-- Python `sorted(list(set(xs)))` for numbers. -/
def pySortedSetRat (xs : List ℚ) : List ℚ :=
  xs.dedup.insertionSort (fun a b => a ≤ b)

/-- Python `str.split(sep)` for a single-character separator (splits at
every occurrence, keeping empty parts). -/
def splitOnChar (sep : Char) : List Char → List (List Char)
  | [] => [[]]
  | c :: rest =>
    match splitOnChar sep rest with
    | [] => if c = sep then [[], []] else [[c]]
    | h :: t => if c = sep then [] :: h :: t else (c :: h) :: t

/-- Convert one expiration value to `YYMMDD` as `get_option_chain` does
(`str(exp)[:10]`, split on `-`, keep it only if there are three
parts; `yy` is `parts[0][2:]`). -/
def toYYMMDD (exp : String) : Option String :=
  match splitOnChar '-' (exp.data.take 10) with
  | [y, m, d] => some ⟨y.drop 2 ++ m ++ d⟩
  | _ => none

/-- The dictionary returned by `AIController.get_option_chain`. -/
structure ChainResult where
  strikes : List ℚ
  expiries : List String
  chain : List ChainRow
deriving DecidableEq, Repr

/-- `AIController.get_option_chain`: `none` on an exception or when the
fetch has no results. -/
def get_option_chain (fetch : Except String (Option (List ChainRow))) :
    Option ChainResult :=
  match fetch with
  | .error _ => none
  | .ok none => none
  | .ok (some rows) =>
    some ⟨pySortedSetRat (rows.map (fun r => r.strike)),
          pySortedSetStr ((rows.map (fun r => r.expiration)).filterMap toYYMMDD),
          rows⟩

/-- The external data sources consulted by the trade-plan pipeline,
per symbol. -/
structure MarketEnv where
  quote : String → Except String QuoteResults
  chain : String → Except String (Option (List ChainRow))

/-- A trade plan dictionary.  The last three fields model the keys
added during enrichment. -/
structure TradePlan where
  type : String
  action : String
  symbol : String
  quantity : Nat
  strike : ℚ := 0
  expiry : String := ""
  current_price : Option ℚ := none
  current_stock_price : Option ℚ := none
  option_price : Option ℚ := none
deriving DecidableEq, Repr

/-- `f"20{target_expiry[:2]}-{target_expiry[2:4]}-{target_expiry[4:]}"`. -/
def targetExpiryFull (expiry : String) : String :=
  "20" ++ expiry.take 2 ++ "-" ++ (expiry.drop 2).take 2 ++ "-" ++ expiry.drop 4

/-- Expiry resolution of `validate_and_enrich_trade_plan`: keep the
target when it occurs in the chain, otherwise take the first of the
sorted distinct expirations that is `>=` the target (string
comparison); error out when there is none. -/
def resolveExpiry (rows : List ChainRow) (targetFull : String) :
    Except String String :=
  if (rows.filter (fun r => r.expiration == targetFull)).isEmpty then
    match (pySortedSetStr (rows.map (fun r => r.expiration))).filter
        (fun e => strLeB targetFull.data e.data) with
    | [] => .error "No valid expiration dates found"
    | e :: _ => .ok e
  else .ok targetFull

/-- `target_expiry_full[2:4] + target_expiry_full[5:7] +
target_expiry_full[8:10]`. -/
def newExpiryOf (tf : String) : String :=
  (tf.drop 2).take 2 ++ (tf.drop 5).take 2 ++ (tf.drop 8).take 2

/-- `"puts" if trade_plan["action"] == "buy" else "calls"`. -/
def optionTypeFor (action : String) : String :=
  if action == "buy" then "puts" else "calls"

/-- The chain filtered to the resolved expiry and the option type
selected by the plan action. -/
def typeChainOf (rows : List ChainRow) (tf : String) (action : String) :
    List ChainRow :=
  (rows.filter (fun r => r.expiration == tf)).filter
    (fun r => r.type == optionTypeFor action)

/-- `sorted(list(set(type_chain.strike)))`. -/
def availableStrikesOf (tc : List ChainRow) : List ℚ :=
  pySortedSetRat (tc.map (fun r => r.strike))

/-- Python `min(l, key=f)`: the first element attaining the minimal
key. -/
def pyMinKey (l : List ℚ) (f : ℚ → ℚ) : Option ℚ :=
  match l with
  | [] => none
  | x :: xs => some (xs.foldl (fun b y => if f y < f b then y else b) x)

/-- `AIController.validate_and_enrich_trade_plan`.  `ValueError` raises
become `.error`. -/
def validate_and_enrich_trade_plan (env : MarketEnv) (plan : TradePlan) :
    Except String TradePlan :=
  match get_stock_price (env.quote plan.symbol) plan.symbol with
  | none => .error ("Could not fetch current price for " ++ plan.symbol)
  | some current_price =>
    if plan.type == "stock" then
      .ok { plan with current_price := some current_price }
    else
      match get_option_chain (env.chain plan.symbol) with
      | none => .error ("Could not fetch options data for " ++ plan.symbol)
      | some options_data =>
        let chain_data := options_data.chain
        match resolveExpiry chain_data (targetExpiryFull plan.expiry) with
        | .error e => .error e
        | .ok tf =>
          let new_expiry := newExpiryOf tf
          let type_chain := typeChainOf chain_data tf plan.action
          if type_chain.isEmpty then
            .error ("No " ++ optionTypeFor plan.action ++ " found for " ++ plan.symbol)
          else
            let available_strikes := availableStrikesOf type_chain
            if available_strikes.isEmpty then
              .error ("No strike prices available for " ++ plan.symbol)
            else
              match pyMinKey available_strikes
                  (fun x => |x - plan.strike|) with
              | none => .error "No strike prices available"
              | some closest_strike =>
                match type_chain.filter (fun r => r.strike == closest_strike) with
                | [] => .error "Could not find option price"
                | r :: _ =>
                  .ok { plan with
                        strike := closest_strike,
                        expiry := new_expiry,
                        current_stock_price := some current_price,
                        option_price := some r.last_price }

/-! ### `execute_trade_plan` and the OCC option symbol -/

/-- `"P" if enriched_plan["action"] == "buy" else "C"`. -/
def occFlagFor (action : String) : String :=
  if action == "buy" then "P" else "C"

/-- The OCC option symbol constructed by `execute_trade_plan`:
`SYMBOL + YYMMDD + C/P + f"{int(strike * 1000):08d}"`. -/
def occOptionSymbol (plan : TradePlan) : String :=
  plan.symbol ++ plan.expiry ++ occFlagFor plan.action ++
    pyFormat08d (pyTrunc (plan.strike * 1000))

/-- `AIController.execute_trade_plan`: enrich the plan, place a stock or
option order, and report success as `not bool(result.get("error"))`;
any exception (notably the `ValueError` raises of enrichment) prints an
error and returns `False`. -/
def execute_trade_plan (env : MarketEnv) (net : Except String String)
    (plan : TradePlan) : Bool :=
  match validate_and_enrich_trade_plan env plan with
  | .error _ => false
  | .ok enriched_plan =>
    let result :=
      if enriched_plan.type == "stock" then
        place_order net enriched_plan.symbol enriched_plan.quantity
          enriched_plan.action
      else
        place_order net (occOptionSymbol enriched_plan)
          enriched_plan.quantity enriched_plan.action
    !(pyTruthyOptStr (orderRespError result))

/-! ### Return-value embedding for the failure paths

A small universe of the Python values returned on the failure paths of
the pipeline, so that `return None`, `return False` and
`return {"error": msg}` stay distinguishable. -/

inductive PyVal where
  | none
  | bool (b : Bool)
  | dict (kvs : List (String × String))
  | stockDict (d : StockData)
  | chainDict (d : ChainResult)
deriving DecidableEq, Repr

/-- `get_stock_data` with its Python return value. -/
def get_stock_data_val (quote : Except String QuoteResults)
    (symbol : String) : PyVal :=
  match get_stock_data quote symbol with
  | Option.none => .none
  | some d => .stockDict d

/-- `get_option_chain` with its Python return value. -/
def get_option_chain_val (fetch : Except String (Option (List ChainRow))) :
    PyVal :=
  match get_option_chain fetch with
  | Option.none => .none
  | some d => .chainDict d

/-- `execute_trade_plan` with its Python return value (a `bool`). -/
def execute_trade_plan_val (env : MarketEnv) (net : Except String String)
    (plan : TradePlan) : PyVal :=
  .bool (execute_trade_plan env net plan)

/-- `place_order` with its Python return value (always a dictionary:
the response JSON, or `{"error": msg}` on a request error). -/
def place_order_val (net : Except String String) (symbol : String)
    (qty : Nat) (side : String) : PyVal :=
  match place_order net symbol qty side with
  | .okDict _ status => .dict [("status", status)]
  | .errDict m => .dict [("error", m)]

/-! ### `call_chat` control flow and trade-plan confirmation -/

/-- What a `chat` invocation produced: a trading result from the regex
path, or whatever the LLM continuation produced. -/
inductive ChatOutcome where
  | trade (r : OrderResponse)
  | fromLLM (s : String)
deriving DecidableEq, Repr

/-- The dispatch at the top of `AIController.call_chat`:
`handle_trading_command` is tried first and its (truthy) result is
returned as-is; only when it returns `None` does the code fall through
to the LLM provider, modelled by the continuation `llm`.  The second
component records whether the provider was invoked. -/
def call_chat (pos : Positions) (net : Except String String)
    (llm : String → String) (question : String) : ChatOutcome × Bool :=
  match handle_trading_command pos net question with
  | some trading_result => (.trade trading_result, false)
  | none => (.fromLLM (llm question), true)

/-- Outcome of the confirmation prompt shared by `call_prepare` and
`call_suggest`. -/
inductive ConfirmOutcome where
  | executed (success : Bool)
  | cancelled
  | invalidCancelled
deriving DecidableEq, Repr

/-- The confirmation block of `call_prepare`:
`response = input().lower().strip()`; execute on `y`/`yes`, print
`Trade cancelled.` on `n`/`no`, and treat anything else as invalid
(also cancelling). -/
def call_prepare_confirm (env : MarketEnv) (net : Except String String)
    (plan : TradePlan) (raw : String) : ConfirmOutcome :=
  let response := pyStrip (pyLower raw)
  if response == "y" || response == "yes" then
    .executed (execute_trade_plan env net plan)
  else if response == "n" || response == "no" then
    .cancelled
  else
    .invalidCancelled

/-- The confirmation block of `call_suggest`, identical letter for
letter to the one in `call_prepare`. -/
def call_suggest_confirm (env : MarketEnv) (net : Except String String)
    (plan : TradePlan) (raw : String) : ConfirmOutcome :=
  let response := pyStrip (pyLower raw)
  if response == "y" || response == "yes" then
    .executed (execute_trade_plan env net plan)
  else if response == "n" || response == "no" then
    .cancelled
  else
    .invalidCancelled

/-! ### Auxiliary spec-side definitions used in theorem statements -/

/-- The uppercase ASCII alphabet. -/
def upperAlphabet : List Char := "ABCDEFGHIJKLMNOPQRSTUVWXYZ".data

/-- Distance between two `YYMMDD` expiry strings read as numbers
(used to compare how near two expiries are to a target). -/
def dateDistYYMMDD (a b : String) : Nat :=
  max (natOfDigits a.data) (natOfDigits b.data) -
    min (natOfDigits a.data) (natOfDigits b.data)

/-- Which capture contents a regex can produce for a group index:
`CapSpec r j cs` holds whenever a run of `r` can record `(j, cs)`. -/
def RE.CapSpec : RE → Nat → List Char → Prop
  | .lit _, _, _ => False
  | .plus _, _, _ => False
  | .cgroup i p, j, cs => i = j ∧ cs ≠ [] ∧ ∀ c ∈ cs, p c = true
  | .opt r, j, cs => r.CapSpec j cs
  | .alt r1 r2, j, cs => r1.CapSpec j cs ∨ r2.CapSpec j cs
  | .cat r1 r2, j, cs => r1.CapSpec j cs ∨ r2.CapSpec j cs

/-! ## Helper lemmas -/

theorem validChar_toNat (c : Char) : Nat.isValidChar c.toNat := c.valid

theorem lowerN_valid {n : Nat} (h : Nat.isValidChar n) :
    Nat.isValidChar (lowerN n) := by
  unfold lowerN
  rcases h with h | h
  · split <;> exact Or.inl (by omega)
  · split
    · omega
    · exact Or.inr h

theorem upperN_valid {n : Nat} (h : Nat.isValidChar n) :
    Nat.isValidChar (upperN n) := by
  unfold upperN
  rcases h with h | h
  · split <;> exact Or.inl (by omega)
  · split
    · omega
    · exact Or.inr h

theorem toNat_ofNat_valid {n : Nat} (h : Nat.isValidChar n) :
    (Char.ofNat n).toNat = n := by
  rw [Char.ofNat, dif_pos h]
  rfl

theorem toNat_pyToLower (c : Char) :
    (pyToLower c).toNat = lowerN c.toNat :=
  toNat_ofNat_valid (lowerN_valid (validChar_toNat c))

theorem toNat_pyToUpper (c : Char) :
    (pyToUpper c).toNat = upperN c.toNat :=
  toNat_ofNat_valid (upperN_valid (validChar_toNat c))

theorem lowerN_idem (n : Nat) : lowerN (lowerN n) = lowerN n := by
  unfold lowerN
  split
  · split <;> omega
  · rfl

theorem pyToLower_idem (c : Char) : pyToLower (pyToLower c) = pyToLower c := by
  show Char.ofNat (lowerN (pyToLower c).toNat) = pyToLower c
  rw [toNat_pyToLower, lowerN_idem]
  rfl

theorem pyLower_idem (s : String) : pyLower (pyLower s) = pyLower s := by
  unfold pyLower
  rw [List.map_map]
  exact congrArg String.mk (List.map_congr_left fun c _ => pyToLower_idem c)

/-- Transfer a decidable fact about all code points below 123 to a
character with such a code point. -/
theorem char_below123 {P : Char → Prop} (c : Char) (hc : c.toNat < 123)
    (hall : ∀ n ∈ List.range 123, P (Char.ofNat n)) : P c := by
  have := hall c.toNat (List.mem_range.mpr hc)
  rwa [Char.ofNat_toNat] at this

theorem alphaChar_toNat_lt (c : Char) (h : isAlphaChar c = true) :
    c.toNat < 123 := by
  unfold isAlphaChar at h
  simp only [Bool.or_eq_true, Bool.and_eq_true, decide_eq_true_eq] at h
  omega

set_option maxRecDepth 8000 in
theorem alpha_upper_lower_mem (c : Char) (h : isAlphaChar c = true) :
    pyToUpper (pyToLower c) ∈ upperAlphabet := by
  refine char_below123 (P := fun c =>
    isAlphaChar c = true → pyToUpper (pyToLower c) ∈ upperAlphabet)
    c (alphaChar_toNat_lt c h) ?_ h
  decide

theorem alpha_not_digit (c : Char) (h : isAlphaChar c = true) :
    isDigitChar c = false := by
  unfold isAlphaChar at h
  unfold isDigitChar
  simp only [Bool.or_eq_true, Bool.and_eq_true, decide_eq_true_eq] at h ⊢
  simp only [Bool.and_eq_false_iff, decide_eq_false_iff_not]
  omega

theorem natOfDigits_append_single (l : List Char) (c : Char) :
    natOfDigits (l ++ [c]) = natOfDigits l * 10 + (c.toNat - 48) := by
  simp [natOfDigits, List.foldl_append]

theorem toNat_digitChar10 (n : Nat) : (digitChar10 n).toNat = 48 + n % 10 :=
  toNat_ofNat_valid (Or.inl (by omega))

theorem isDigitChar_digitChar10 (n : Nat) :
    isDigitChar (digitChar10 n) = true := by
  simp only [isDigitChar, toNat_digitChar10, Bool.and_eq_true,
    decide_eq_true_eq]
  omega

theorem natOfDigits_replicate_zero (k : Nat) :
    natOfDigits (List.replicate k '0') = 0 := by
  induction k with
  | zero => rfl
  | succ k ih => simpa [natOfDigits, List.replicate_succ] using ih

theorem natOfDigits_zeros_append (k : Nat) (ds : List Char) :
    natOfDigits (List.replicate k '0' ++ ds) = natOfDigits ds := by
  have h0 := natOfDigits_replicate_zero k
  unfold natOfDigits at h0 ⊢
  rw [List.foldl_append, h0]

theorem decDigitsAux_step (f n : Nat) (h10 : ¬n < 10) :
    decDigitsAux (f + 1) n = decDigitsAux f (n / 10) ++ [digitChar10 n] := by
  show (if n < 10 then [digitChar10 n]
    else decDigitsAux f (n / 10) ++ [digitChar10 n]) = _
  rw [if_neg h10]

theorem decDigitsAux_small (f n : Nat) (h10 : n < 10) :
    decDigitsAux (f + 1) n = [digitChar10 n] := by
  show (if n < 10 then [digitChar10 n]
    else decDigitsAux f (n / 10) ++ [digitChar10 n]) = _
  rw [if_pos h10]

theorem natOfDigits_single_digit (n : Nat) (h10 : n < 10) :
    natOfDigits [digitChar10 n] = n := by
  simp [natOfDigits, toNat_digitChar10]
  omega

theorem decDigitsAux_spec (f : Nat) : ∀ n, n < 10 ^ (f + 1) →
    decDigitsAux (f + 1) n ≠ [] ∧ (decDigitsAux (f + 1) n).length ≤ f + 1 ∧
    (∀ c ∈ decDigitsAux (f + 1) n, isDigitChar c = true) ∧
    natOfDigits (decDigitsAux (f + 1) n) = n := by
  induction f with
  | zero =>
    intro n hn
    have h10 : n < 10 := by simpa using hn
    rw [decDigitsAux_small 0 n h10]
    refine ⟨by simp, by simp, ?_, natOfDigits_single_digit n h10⟩
    intro c hc
    simp only [List.mem_singleton] at hc
    subst hc
    exact isDigitChar_digitChar10 n
  | succ f ih =>
    intro n hn
    by_cases h10 : n < 10
    · rw [decDigitsAux_small (f + 1) n h10]
      refine ⟨by simp, by simp, ?_, natOfDigits_single_digit n h10⟩
      intro c hc
      simp only [List.mem_singleton] at hc
      subst hc
      exact isDigitChar_digitChar10 n
    · have hdiv : n / 10 < 10 ^ (f + 1) := by
        rw [Nat.div_lt_iff_lt_mul (by omega)]
        calc n < 10 ^ (f + 1 + 1) := hn
        _ = 10 ^ (f + 1) * 10 := by ring
      obtain ⟨hne, hlen, hdig, hval⟩ := ih (n / 10) hdiv
      rw [decDigitsAux_step (f + 1) n h10]
      refine ⟨by simp, ?_, ?_, ?_⟩
      · rw [List.length_append]
        simp only [List.length_singleton]
        omega
      · intro c hc
        rcases List.mem_append.mp hc with hc | hc
        · exact hdig c hc
        · simp only [List.mem_singleton] at hc
          subst hc
          exact isDigitChar_digitChar10 n
      · rw [natOfDigits_append_single, hval, toNat_digitChar10]
        omega

theorem decDigitsAux_fuel : ∀ f g n, n < 10 ^ (f + 1) → n < 10 ^ (g + 1) →
    decDigitsAux (f + 1) n = decDigitsAux (g + 1) n := by
  intro f
  induction f with
  | zero =>
    intro g n hf _
    have h10 : n < 10 := by simpa using hf
    rw [decDigitsAux_small 0 n h10, decDigitsAux_small g n h10]
  | succ f ih =>
    intro g n hf hg
    by_cases h10 : n < 10
    · rw [decDigitsAux_small (f + 1) n h10, decDigitsAux_small g n h10]
    · cases g with
      | zero =>
        exfalso
        have : n < 10 := by simpa using hg
        omega
      | succ g =>
        have hdivf : n / 10 < 10 ^ (f + 1) := by
          rw [Nat.div_lt_iff_lt_mul (by omega)]
          calc n < 10 ^ (f + 1 + 1) := hf
          _ = 10 ^ (f + 1) * 10 := by ring
        have hdivg : n / 10 < 10 ^ (g + 1) := by
          rw [Nat.div_lt_iff_lt_mul (by omega)]
          calc n < 10 ^ (g + 1 + 1) := hg
          _ = 10 ^ (g + 1) * 10 := by ring
        rw [decDigitsAux_step (f + 1) n h10, decDigitsAux_step (g + 1) n h10]
        rw [ih g (n / 10) hdivf hdivg]

theorem decDigits_spec8 (n : Nat) (h : n < 10 ^ 8) :
    decDigits n ≠ [] ∧ (decDigits n).length ≤ 8 ∧
    (∀ c ∈ decDigits n, isDigitChar c = true) ∧
    natOfDigits (decDigits n) = n := by
  have hself : n < 10 ^ (n + 1) :=
    lt_of_lt_of_le (Nat.lt_pow_self (by omega) n)
      (Nat.pow_le_pow_right (by omega) (by omega))
  have heq : decDigits n = decDigitsAux (7 + 1) n :=
    decDigitsAux_fuel n 7 n hself h
  obtain ⟨h1, h2, h3, h4⟩ := decDigitsAux_spec 7 n h
  rw [heq]
  exact ⟨h1, h2, h3, h4⟩

theorem pyFormat08d_spec (z : ℤ) (h0 : 0 ≤ z) (h8 : z < 10 ^ 8) :
    (pyFormat08d z).data.length = 8 ∧
    (∀ c ∈ (pyFormat08d z).data, isDigitChar c = true) ∧
    (natOfDigits (pyFormat08d z).data : ℤ) = z := by
  have hnat : z.natAbs < 10 ^ 8 := by omega
  obtain ⟨hne, hlen, hdig, hval⟩ := decDigits_spec8 z.natAbs hnat
  have hrw : pyFormat08d z =
      ⟨List.replicate (8 - (decDigits z.natAbs).length) '0' ++
        decDigits z.natAbs⟩ := by
    unfold pyFormat08d
    rw [if_neg (by omega)]
  rw [hrw]
  refine ⟨?_, ?_, ?_⟩
  · simp only [List.length_append, List.length_replicate]
    omega
  · intro c hc
    rcases List.mem_append.mp hc with hc | hc
    · rw [List.eq_of_mem_replicate hc]
      decide
    · exact hdig c hc
  · rw [natOfDigits_zeros_append, hval]
    omega

theorem ratFloor_nonneg {q : ℚ} (h : 0 ≤ q) : 0 ≤ Rat.floor q :=
  Rat.le_floor.mpr (by exact_mod_cast h)

theorem pyTrunc_nonneg {q : ℚ} (h : 0 ≤ q) : 0 ≤ pyTrunc q := by
  unfold pyTrunc
  rw [if_neg (not_lt.mpr h)]
  exact ratFloor_nonneg h

/-! ## Claim theorems -/

/-- C4: for every enriched option trade plan (with an OCC-representable
strike, i.e. `0 ≤ strike` and `int(strike * 1000) < 10^8`),
`execute_trade_plan` constructs the order symbol in OCC format: root
symbol, then the `YYMMDD` expiry, then a single call/put flag
character, then the strike multiplied by 1000 rendered as a zero-padded
8-digit integer. -/
theorem c4_occ_symbol_format (plan : TradePlan) (h0 : 0 ≤ plan.strike)
    (h8 : pyTrunc (plan.strike * 1000) < 10 ^ 8) :
    occOptionSymbol plan =
      plan.symbol ++ plan.expiry ++ occFlagFor plan.action ++
        pyFormat08d (pyTrunc (plan.strike * 1000)) ∧
    (occFlagFor plan.action = "P" ∨ occFlagFor plan.action = "C") ∧
    (pyFormat08d (pyTrunc (plan.strike * 1000))).data.length = 8 ∧
    (∀ c ∈ (pyFormat08d (pyTrunc (plan.strike * 1000))).data,
      isDigitChar c = true) ∧
    (natOfDigits (pyFormat08d (pyTrunc (plan.strike * 1000))).data : ℤ) =
      pyTrunc (plan.strike * 1000) := by
  have hnn : (0 : ℤ) ≤ pyTrunc (plan.strike * 1000) :=
    pyTrunc_nonneg (by positivity)
  obtain ⟨hlen, hdig, hval⟩ := pyFormat08d_spec _ hnn h8
  refine ⟨rfl, ?_, hlen, hdig, hval⟩
  unfold occFlagFor
  split
  · exact Or.inl rfl
  · exact Or.inr rfl

/-- Witness for C4 at the concrete strike 95:
`f"{int(95 * 1000):08d}" = "00095000"` and the assembled OCC symbol is
`AAPL250620C00095000`. -/
theorem c4_occ_symbol_format_witness :
    occOptionSymbol
      { type := "option", action := "sell", symbol := "AAPL",
        quantity := 1, strike := 95, expiry := "250620" } =
      "AAPL250620C00095000" ∧
    (pyFormat08d (pyTrunc ((95 : ℚ) * 1000))).data.length = 8 := by
  have e : pyTrunc ((95 : ℚ) * 1000) = 95000 := by
    norm_num [pyTrunc, Rat.floor_def']
  have h := c4_occ_symbol_format
    { type := "option", action := "sell", symbol := "AAPL",
      quantity := 1, strike := 95, expiry := "250620" }
    (by norm_num) (by rw [e]; norm_num)
  constructor
  · show "AAPL" ++ "250620" ++ occFlagFor "sell" ++
      pyFormat08d (pyTrunc ((95 : ℚ) * 1000)) = "AAPL250620C00095000"
    rw [e]
    decide
  · exact h.2.2.1

/-- C6: in `call_prepare` and `call_suggest`, `execute_trade_plan` is
invoked if and only if the confirmation input, lowercased and stripped,
is exactly `"y"` or `"yes"`; any other input cancels the trade. -/
theorem c6_confirmation_gate (env : MarketEnv) (net : Except String String)
    (plan : TradePlan) (raw : String) :
    (call_prepare_confirm env net plan raw =
        ConfirmOutcome.executed (execute_trade_plan env net plan) ↔
      (pyStrip (pyLower raw) = "y" ∨ pyStrip (pyLower raw) = "yes")) ∧
    (call_suggest_confirm env net plan raw =
        ConfirmOutcome.executed (execute_trade_plan env net plan) ↔
      (pyStrip (pyLower raw) = "y" ∨ pyStrip (pyLower raw) = "yes")) ∧
    (¬(pyStrip (pyLower raw) = "y" ∨ pyStrip (pyLower raw) = "yes") →
      (call_prepare_confirm env net plan raw = ConfirmOutcome.cancelled ∨
        call_prepare_confirm env net plan raw =
          ConfirmOutcome.invalidCancelled) ∧
      (call_suggest_confirm env net plan raw = ConfirmOutcome.cancelled ∨
        call_suggest_confirm env net plan raw =
          ConfirmOutcome.invalidCancelled)) := by
  by_cases h : pyStrip (pyLower raw) = "y" ∨ pyStrip (pyLower raw) = "yes"
  · have hb : (pyStrip (pyLower raw) == "y" ||
        pyStrip (pyLower raw) == "yes") = true := by
      rcases h with h | h <;> simp [h]
    have e1 : call_prepare_confirm env net plan raw =
        ConfirmOutcome.executed (execute_trade_plan env net plan) := by
      simp [call_prepare_confirm, hb]
    have e2 : call_suggest_confirm env net plan raw =
        ConfirmOutcome.executed (execute_trade_plan env net plan) := by
      simp [call_suggest_confirm, hb]
    exact ⟨iff_of_true e1 h, iff_of_true e2 h, fun hn => absurd h hn⟩
  · have hb : (pyStrip (pyLower raw) == "y" ||
        pyStrip (pyLower raw) == "yes") = false := by
      push_neg at h
      simp [h.1, h.2]
    by_cases h2 : pyStrip (pyLower raw) = "n" ∨ pyStrip (pyLower raw) = "no"
    · have hb2 : (pyStrip (pyLower raw) == "n" ||
          pyStrip (pyLower raw) == "no") = true := by
        rcases h2 with h2 | h2 <;> simp [h2]
      have e1 : call_prepare_confirm env net plan raw =
          ConfirmOutcome.cancelled := by
        simp [call_prepare_confirm, hb, hb2]
      have e2 : call_suggest_confirm env net plan raw =
          ConfirmOutcome.cancelled := by
        simp [call_suggest_confirm, hb, hb2]
      refine ⟨iff_of_false (by simp [e1]) h, iff_of_false (by simp [e2]) h,
        fun _ => ⟨Or.inl e1, Or.inl e2⟩⟩
    · have hb2 : (pyStrip (pyLower raw) == "n" ||
          pyStrip (pyLower raw) == "no") = false := by
        push_neg at h2
        simp [h2.1, h2.2]
      have e1 : call_prepare_confirm env net plan raw =
          ConfirmOutcome.invalidCancelled := by
        simp [call_prepare_confirm, hb, hb2]
      have e2 : call_suggest_confirm env net plan raw =
          ConfirmOutcome.invalidCancelled := by
        simp [call_suggest_confirm, hb, hb2]
      refine ⟨iff_of_false (by simp [e1]) h, iff_of_false (by simp [e2]) h,
        fun _ => ⟨Or.inr e1, Or.inr e2⟩⟩

/-- Witness for C6: the input `"  YES "` lowercases and strips to
`"yes"`, so the trade is executed. -/
theorem c6_confirmation_gate_witness :
    call_prepare_confirm
      ⟨fun _ => Except.error "down", fun _ => Except.error "down"⟩
      (Except.error "down")
      { type := "stock", action := "buy", symbol := "QQQ", quantity := 50 }
      "  YES " =
      ConfirmOutcome.executed (execute_trade_plan
        ⟨fun _ => Except.error "down", fun _ => Except.error "down"⟩
        (Except.error "down")
        { type := "stock", action := "buy", symbol := "QQQ",
          quantity := 50 }) :=
  (c6_confirmation_gate _ _ _ _).1.mpr (Or.inr (by decide))

/-- C8: the instrument side is fixed by the plan action: `"buy"`
selects puts (chain filtered to `"puts"`, OCC flag `"P"`), any other
action selects calls (`"calls"`, flag `"C"`). -/
theorem c8_buy_put_sell_call (action : String) (rows : List ChainRow)
    (tf : String) (plan : TradePlan) :
    (optionTypeFor action = "puts" ↔ action = "buy") ∧
    (optionTypeFor action = "calls" ↔ action ≠ "buy") ∧
    (occFlagFor action = "P" ↔ action = "buy") ∧
    (occFlagFor action = "C" ↔ action ≠ "buy") ∧
    (∀ r ∈ typeChainOf rows tf action, r.type = optionTypeFor action) ∧
    occOptionSymbol plan =
      plan.symbol ++ plan.expiry ++ occFlagFor plan.action ++
        pyFormat08d (pyTrunc (plan.strike * 1000)) := by
  refine ⟨?_, ?_, ?_, ?_, ?_, rfl⟩
  · unfold optionTypeFor
    by_cases h : action = "buy" <;> simp [h]
  · unfold optionTypeFor
    by_cases h : action = "buy" <;> simp [h]
  · unfold occFlagFor
    by_cases h : action = "buy" <;> simp [h]
  · unfold occFlagFor
    by_cases h : action = "buy" <;> simp [h]
  · intro r hr
    unfold typeChainOf at hr
    have := (List.mem_filter.mp hr).2
    simpa using this

/-- Witness for C8: a sell plan filters to calls and gets flag `C`. -/
theorem c8_buy_put_sell_call_witness :
    optionTypeFor "sell" = "calls" ∧ occFlagFor "sell" = "C" ∧
    optionTypeFor "buy" = "puts" ∧ occFlagFor "buy" = "P" :=
  ⟨(c8_buy_put_sell_call "sell" []
      "" { type := "stock", action := "buy", symbol := "", quantity := 0 }).2.1.mpr
      (by decide),
   (c8_buy_put_sell_call "sell" []
      "" { type := "stock", action := "buy", symbol := "", quantity := 0 }).2.2.2.1.mpr
      (by decide),
   (c8_buy_put_sell_call "buy" []
      "" { type := "stock", action := "buy", symbol := "", quantity := 0 }).1.mpr rfl,
   (c8_buy_put_sell_call "buy" []
      "" { type := "stock", action := "buy", symbol := "", quantity := 0 }).2.2.1.mpr rfl⟩

/-- C7 counterexample: on a request error, `place_order` does not
return `None`; it returns the dictionary `{"error": msg}`. -/
theorem c7_counterexample :
    place_order_val (Except.error "Connection refused") "AAPL" 1 "buy" =
      PyVal.dict [("error", "Error placing order: Connection refused")] ∧
    place_order_val (Except.error "Connection refused") "AAPL" 1 "buy" ≠
      PyVal.none := by
  exact ⟨rfl, by decide⟩

/-- C7 (amended): on an exception or request error each operation
prints an error and returns its failure value, which is `None` for the
data fetches (`get_stock_data`, `get_option_chain`), `False` for
`execute_trade_plan`, and the `{"error": msg}` dictionary for
`place_order`. -/
theorem c7_failure_values (e sym : String) (qty : Nat) (side : String)
    (env : MarketEnv) (net : Except String String) (plan : TradePlan)
    (msg : String) :
    get_stock_data_val (Except.error e) sym = PyVal.none ∧
    get_option_chain_val (Except.error e) = PyVal.none ∧
    (validate_and_enrich_trade_plan env plan = Except.error msg →
      execute_trade_plan_val env net plan = PyVal.bool false) ∧
    place_order_val (Except.error e) sym qty side =
      PyVal.dict [("error", "Error placing order: " ++ e)] := by
  refine ⟨rfl, rfl, ?_, rfl⟩
  intro h
  unfold execute_trade_plan_val execute_trade_plan
  rw [h]

/-- Witness for C7 (amended): a concrete failing stock-data fetch makes
`execute_trade_plan` return `False` (and the fetches return `None`). -/
theorem c7_failure_values_witness :
    execute_trade_plan_val
      ⟨fun _ => Except.error "boom", fun _ => Except.error "boom"⟩
      (Except.ok "accepted")
      { type := "stock", action := "buy", symbol := "SPY", quantity := 1 } =
      PyVal.bool false ∧
    get_stock_data_val (Except.error "boom") "SPY" = PyVal.none :=
  ⟨(c7_failure_values "boom" "SPY" 1 "buy"
      ⟨fun _ => Except.error "boom", fun _ => Except.error "boom"⟩
      (Except.ok "accepted")
      { type := "stock", action := "buy", symbol := "SPY", quantity := 1 }
      "Could not fetch current price for SPY").2.2.1 rfl,
   (c7_failure_values "boom" "SPY" 1 "buy"
      ⟨fun _ => Except.error "boom", fun _ => Except.error "boom"⟩
      (Except.ok "accepted")
      { type := "stock", action := "buy", symbol := "SPY", quantity := 1 }
      "Could not fetch current price for SPY").1⟩

/-- C5: `call_chat` tries the regex parser first; a (truthy) trading
result is returned as-is without consulting the LLM provider, and the
provider is consulted exactly when `handle_trading_command` yields no
trade. -/
theorem c5_regex_first_llm_fallback (pos : Positions)
    (net : Except String String) (llm : String → String)
    (question : String) :
    (∀ r, handle_trading_command pos net question = some r →
      call_chat pos net llm question = (ChatOutcome.trade r, false)) ∧
    (handle_trading_command pos net question = none →
      call_chat pos net llm question =
        (ChatOutcome.fromLLM (llm question), true)) := by
  constructor
  · intro r h
    unfold call_chat
    rw [h]
  · intro h
    unfold call_chat
    rw [h]

/-- Witness for C5: a parsed buy command is executed and returned with
no LLM involvement. -/
theorem c5_regex_first_llm_fallback_witness :
    call_chat (fun _ => none) (Except.ok "accepted") (fun _ => "advice")
      "buy 2 shares of apple" =
      (ChatOutcome.trade (OrderResponse.okDict ⟨"AAPL", 2, "buy"⟩ "accepted"),
        false) :=
  (c5_regex_first_llm_fallback (fun _ => none) (Except.ok "accepted")
    (fun _ => "advice") "buy 2 shares of apple").1
    (OrderResponse.okDict ⟨"AAPL", 2, "buy"⟩ "accepted") (by decide)

/-- C2: for every chat text parsing as a sell of `q` shares of `S`,
`handle_trading_command` checks the position first: with no position
(or an empty position JSON), or with fewer than `q` shares held, it
returns `None` and places no order; otherwise it places the sell
order.  A buy command is submitted without any position check. -/
theorem c2_sell_position_check (pos : Positions)
    (net : Except String String) (text : String) :
    (∀ s q, parse_trading_command text = some ("sell", s, q) →
      (pos s = none → handle_trading_command pos net text = none) ∧
      (∀ d, pos s = some d → d.isEmpty = true →
        handle_trading_command pos net text = none) ∧
      (∀ d, pos s = some d → d.isEmpty = false → positionQty d < (q : ℚ) →
        handle_trading_command pos net text = none) ∧
      (∀ d, pos s = some d → d.isEmpty = false → (q : ℚ) ≤ positionQty d →
        handle_trading_command pos net text =
          some (place_order net s q "sell"))) ∧
    (∀ s q, parse_trading_command text = some ("buy", s, q) →
      handle_trading_command pos net text =
        some (place_order net s q "buy")) := by
  constructor
  · intro s q hp
    refine ⟨?_, ?_, ?_, ?_⟩
    · intro hpos
      simp only [handle_trading_command, hp, beq_self_eq_true, if_true, hpos]
    · intro d hpos hd
      simp only [handle_trading_command, hp, beq_self_eq_true, if_true, hpos,
        hd, if_true]
    · intro d hpos hd hlt
      simp only [handle_trading_command, hp, beq_self_eq_true, if_true, hpos,
        hd, Bool.false_eq_true, if_false]
      rw [if_pos hlt]
    · intro d hpos hd hge
      simp only [handle_trading_command, hp, beq_self_eq_true, if_true, hpos,
        hd, Bool.false_eq_true, if_false]
      rw [if_neg (not_lt.mpr hge)]
  · intro s q hp
    simp only [handle_trading_command, hp]
    rw [if_neg (by decide)]

/-- Witness for C2: selling 5 AAPL with 10 held goes through; selling
with no position returns `None`. -/
theorem c2_sell_position_check_witness :
    handle_trading_command
      (fun sym => if sym == "AAPL" then some [("qty", (10 : ℚ))] else none)
      (Except.ok "accepted") "sell 5 apple" =
      some (place_order (Except.ok "accepted") "AAPL" 5 "sell") ∧
    handle_trading_command (fun _ => none) (Except.ok "accepted")
      "sell 5 apple" = none := by
  constructor
  · refine ((c2_sell_position_check
      (fun sym => if sym == "AAPL" then some [("qty", (10 : ℚ))] else none)
      (Except.ok "accepted") "sell 5 apple").1 "AAPL" 5 (by decide)).2.2.2
      [("qty", (10 : ℚ))] rfl rfl ?_
    norm_num [positionQty]
  · exact ((c2_sell_position_check (fun _ => none)
      (Except.ok "accepted") "sell 5 apple").1 "AAPL" 5 (by decide)).1 rfl

theorem foldlMin_spec (f : ℚ → ℚ) :
    ∀ (xs : List ℚ) (b : ℚ),
      (xs.foldl (fun b y => if f y < f b then y else b) b = b ∨
        xs.foldl (fun b y => if f y < f b then y else b) b ∈ xs) ∧
      f (xs.foldl (fun b y => if f y < f b then y else b) b) ≤ f b ∧
      ∀ y ∈ xs, f (xs.foldl (fun b y => if f y < f b then y else b) b) ≤ f y := by
  intro xs
  induction xs with
  | nil => exact fun b => ⟨Or.inl rfl, le_refl _, by simp⟩
  | cons x xs ih =>
    intro b
    have hstep : (x :: xs).foldl (fun b y => if f y < f b then y else b) b =
        xs.foldl (fun b y => if f y < f b then y else b)
          (if f x < f b then x else b) := rfl
    obtain ⟨hmem, hle, hall⟩ := ih (if f x < f b then x else b)
    have hble : f (if f x < f b then x else b) ≤ f b := by
      split
      · exact le_of_lt (by assumption)
      · exact le_refl _
    have hblex : f (if f x < f b then x else b) ≤ f x := by
      split
      · exact le_refl _
      · exact le_of_not_lt (by assumption)
    refine ⟨?_, ?_, ?_⟩
    · rw [hstep]
      rcases hmem with h | h
      · rw [h]
        split
        · exact Or.inr (List.mem_cons_self _ _)
        · exact Or.inl rfl
      · exact Or.inr (List.mem_cons_of_mem _ h)
    · rw [hstep]
      exact le_trans hle hble
    · intro y hy
      rw [hstep]
      rcases List.mem_cons.mp hy with h | h
      · subst h
        exact le_trans hle hblex
      · exact hall y h

theorem pyMinKey_spec (l : List ℚ) (f : ℚ → ℚ) (m : ℚ)
    (h : pyMinKey l f = some m) : m ∈ l ∧ ∀ y ∈ l, f m ≤ f y := by
  match l with
  | [] => simp [pyMinKey] at h
  | x :: xs =>
    have hm : m = xs.foldl (fun b y => if f y < f b then y else b) x := by
      simpa [pyMinKey] using h.symm
    obtain ⟨hmem, hle, hall⟩ := foldlMin_spec f xs x
    subst hm
    constructor
    · rcases hmem with h | h
      · rw [h]
        exact List.mem_cons_self _ _
      · exact List.mem_cons_of_mem _ h
    · intro y hy
      rcases List.mem_cons.mp hy with h | h
      · subst h
        exact hle
      · exact hall y h

theorem strLeB_refl : ∀ l : List Char, strLeB l l = true
  | [] => rfl
  | c :: t => by
    unfold strLeB
    rw [if_neg (lt_irrefl c.toNat), if_neg (lt_irrefl c.toNat)]
    exact strLeB_refl t

theorem strLeB_total : ∀ a b : List Char, strLeB a b = true ∨ strLeB b a = true
  | [], _ => Or.inl rfl
  | _ :: _, [] => Or.inr rfl
  | x :: xs, y :: ys => by
    unfold strLeB
    rcases Nat.lt_trichotomy x.toNat y.toNat with h | h | h
    · refine Or.inl ?_
      rw [if_pos h]
    · rw [if_neg (by omega), if_neg (by omega), if_neg (by omega),
        if_neg (by omega)]
      exact strLeB_total xs ys
    · refine Or.inr ?_
      rw [if_pos h]

theorem strLeB_trans : ∀ a b c : List Char,
    strLeB a b = true → strLeB b c = true → strLeB a c = true
  | [], _, _ => fun _ _ => rfl
  | _ :: _, [], _ => fun h _ => by simp [strLeB] at h
  | _ :: _, _ :: _, [] => fun _ h => by simp [strLeB] at h
  | x :: xs, y :: ys, z :: zs => by
    intro h1 h2
    unfold strLeB at h1 h2 ⊢
    rcases Nat.lt_trichotomy x.toNat y.toNat with hxy | hxy | hxy
    · rcases Nat.lt_trichotomy y.toNat z.toNat with hyz | hyz | hyz
      · rw [if_pos (by omega)]
      · rw [if_pos (by omega)]
      · rw [if_neg (by omega), if_pos (by omega)] at h2
        exact absurd h2 (by simp)
    · rcases Nat.lt_trichotomy y.toNat z.toNat with hyz | hyz | hyz
      · rw [if_pos (by omega)]
      · rw [if_neg (by omega), if_neg (by omega)] at h1 h2
        rw [if_neg (by omega), if_neg (by omega)]
        exact strLeB_trans xs ys zs h1 h2
      · rw [if_neg (by omega), if_pos (by omega)] at h2
        exact absurd h2 (by simp)
    · rw [if_neg (by omega), if_pos (by omega)] at h1
      exact absurd h1 (by simp)

instance : IsTotal String pyStrLe :=
  ⟨fun a b => strLeB_total a.data b.data⟩

instance : IsTrans String pyStrLe :=
  ⟨fun a b c => strLeB_trans a.data b.data c.data⟩

instance : IsRefl String pyStrLe := ⟨fun a => strLeB_refl a.data⟩

theorem mem_pySortedSetStr (x : String) (l : List String) :
    x ∈ pySortedSetStr l ↔ x ∈ l := by
  unfold pySortedSetStr
  rw [List.mem_insertionSort, List.mem_dedup]

theorem sorted_pySortedSetStr (l : List String) :
    List.Sorted pyStrLe (pySortedSetStr l) :=
  List.sorted_insertionSort pyStrLe l.dedup

theorem resolveExpiry_spec (rows : List ChainRow) (tf : String)
    (hmiss : (rows.filter (fun r => r.expiration == tf)).isEmpty = true) :
    (∀ e, resolveExpiry rows tf = Except.ok e →
      e ∈ rows.map (fun r => r.expiration) ∧ pyStrLe tf e ∧
      ∀ e2 ∈ rows.map (fun r => r.expiration), pyStrLe tf e2 →
        pyStrLe e e2) ∧
    ((∃ msg, resolveExpiry rows tf = Except.error msg) ↔
      ∀ e2 ∈ rows.map (fun r => r.expiration), ¬ pyStrLe tf e2) := by
  have hres : resolveExpiry rows tf =
      match (pySortedSetStr (rows.map (fun r => r.expiration))).filter
          (fun e => strLeB tf.data e.data) with
      | [] => Except.error "No valid expiration dates found"
      | e :: _ => Except.ok e := by
    unfold resolveExpiry
    rw [if_pos hmiss]
  have hsortedFilter : List.Sorted pyStrLe
      ((pySortedSetStr (rows.map (fun r => r.expiration))).filter
        (fun e => strLeB tf.data e.data)) :=
    List.Sorted.filter _ (sorted_pySortedSetStr _)
  cases hL : (pySortedSetStr (rows.map (fun r => r.expiration))).filter
      (fun e => strLeB tf.data e.data) with
  | nil =>
    rw [hL] at hres
    constructor
    · intro e he
      rw [hres] at he
      exact absurd he (by simp)
    · rw [hres]
      constructor
      · intro _ e2 he2 hle
        have : e2 ∈ (pySortedSetStr (rows.map (fun r => r.expiration))).filter
            (fun e => strLeB tf.data e.data) :=
          List.mem_filter.mpr ⟨(mem_pySortedSetStr _ _).mpr he2, hle⟩
        rw [hL] at this
        exact absurd this (by simp)
      · intro _
        exact ⟨"No valid expiration dates found", rfl⟩
  | cons e0 rest =>
    rw [hL] at hres hsortedFilter
    have he0 : e0 ∈ (e0 :: rest) := List.mem_cons_self _ _
    have he0' := List.mem_filter.mp (hL ▸ he0)
    have he0mem : e0 ∈ rows.map (fun r => r.expiration) :=
      (mem_pySortedSetStr _ _).mp he0'.1
    have he0le : pyStrLe tf e0 := he0'.2
    constructor
    · intro e he
      rw [hres] at he
      injection he with he
      subst he
      refine ⟨he0mem, he0le, ?_⟩
      intro e2 he2 hle
      have hmem2 : e2 ∈ (e0 :: rest) := by
        rw [← hL]
        exact List.mem_filter.mpr ⟨(mem_pySortedSetStr _ _).mpr he2, hle⟩
      rcases List.mem_cons.mp hmem2 with h | h
      · subst h
        exact strLeB_refl _
      · exact List.rel_of_sorted_cons hsortedFilter e2 h
    · rw [hres]
      refine iff_of_false ?_ ?_
      · rintro ⟨msg, hmsg⟩
        exact absurd hmsg (by simp)
      · intro hall
        exact hall e0 he0mem he0le

theorem validate_option_ok_parts (env : MarketEnv) (plan plan' : TradePlan)
    (hs : plan.type ≠ "stock")
    (hok : validate_and_enrich_trade_plan env plan = Except.ok plan') :
    ∃ cp od tf closest r rest,
      get_stock_price (env.quote plan.symbol) plan.symbol = some cp ∧
      get_option_chain (env.chain plan.symbol) = some od ∧
      resolveExpiry od.chain (targetExpiryFull plan.expiry) = Except.ok tf ∧
      pyMinKey (availableStrikesOf (typeChainOf od.chain tf plan.action))
        (fun x => |x - plan.strike|) = some closest ∧
      (typeChainOf od.chain tf plan.action).filter
        (fun row => row.strike == closest) = r :: rest ∧
      plan' = { plan with
                strike := closest,
                expiry := newExpiryOf tf,
                current_stock_price := some cp,
                option_price := some r.last_price } := by
  simp only [validate_and_enrich_trade_plan] at hok
  split at hok
  · exact absurd hok (by simp)
  · rename_i cp hcp
    split at hok
    · rename_i hstock
      exact absurd (by simpa using hstock) hs
    · split at hok
      · exact absurd hok (by simp)
      · rename_i od hod
        split at hok
        · exact absurd hok (by simp)
        · rename_i tf htf
          split at hok
          · exact absurd hok (by simp)
          · rename_i hne
            split at hok
            · exact absurd hok (by simp)
            · rename_i hne2
              split at hok
              · exact absurd hok (by simp)
              · rename_i closest hmin
                split at hok
                · exact absurd hok (by simp)
                · rename_i r rest hfilter
                  injection hok with hok
                  exact ⟨cp, od, tf, closest, r, rest, hcp, hod, htf, hmin,
                    hfilter, hok.symm⟩

/-- C1: when enrichment succeeds for an option plan (in particular the
filtered chain for the resolved expiry and option type has at least one
available strike), the enriched strike is an available strike
minimizing the absolute difference to the requested target strike. -/
theorem c1_closest_strike (env : MarketEnv) (plan plan' : TradePlan)
    (hs : plan.type ≠ "stock")
    (hok : validate_and_enrich_trade_plan env plan = Except.ok plan') :
    ∃ od tf,
      get_option_chain (env.chain plan.symbol) = some od ∧
      resolveExpiry od.chain (targetExpiryFull plan.expiry) = Except.ok tf ∧
      plan'.strike ∈ availableStrikesOf (typeChainOf od.chain tf plan.action) ∧
      ∀ s ∈ availableStrikesOf (typeChainOf od.chain tf plan.action),
        |plan'.strike - plan.strike| ≤ |s - plan.strike| := by
  obtain ⟨cp, od, tf, closest, r, rest, hcp, hod, htf, hmin, hfilter, hplan⟩ :=
    validate_option_ok_parts env plan plan' hs hok
  have hstrike : plan'.strike = closest := by rw [hplan]
  obtain ⟨hmem, hall⟩ := pyMinKey_spec _ _ _ hmin
  refine ⟨od, tf, hod, htf, ?_, ?_⟩
  · rw [hstrike]
    exact hmem
  · intro s hsm
    rw [hstrike]
    exact hall s hsm

/-- Witness for C1: one available strike 95 against a target of 97; the
plan is enriched with strike 95. -/
theorem c1_closest_strike_witness :
    ∃ od tf,
      get_option_chain
        ((⟨fun _ => Except.ok (QuoteResults.single ⟨some 100, none, none, none⟩),
           fun _ => Except.ok (some [⟨"2025-06-20", "calls", 95, 2⟩])⟩ :
          MarketEnv).chain
          ({ type := "option", action := "sell", symbol := "AAPL",
             quantity := 1, strike := 97, expiry := "250620" } :
            TradePlan).symbol) = some od ∧
      resolveExpiry od.chain
        (targetExpiryFull
          ({ type := "option", action := "sell", symbol := "AAPL",
             quantity := 1, strike := 97, expiry := "250620" } :
            TradePlan).expiry) = Except.ok tf ∧
      ({ type := "option", action := "sell", symbol := "AAPL", quantity := 1,
         strike := 95, expiry := "250620", current_stock_price := some 100,
         option_price := some 2 } : TradePlan).strike ∈
        availableStrikesOf (typeChainOf od.chain tf
          ({ type := "option", action := "sell", symbol := "AAPL",
             quantity := 1, strike := 97, expiry := "250620" } :
            TradePlan).action) ∧
      ∀ s ∈ availableStrikesOf (typeChainOf od.chain tf
          ({ type := "option", action := "sell", symbol := "AAPL",
             quantity := 1, strike := 97, expiry := "250620" } :
            TradePlan).action),
        |({ type := "option", action := "sell", symbol := "AAPL",
            quantity := 1, strike := 95, expiry := "250620",
            current_stock_price := some 100, option_price := some 2 } :
            TradePlan).strike -
          ({ type := "option", action := "sell", symbol := "AAPL",
             quantity := 1, strike := 97, expiry := "250620" } :
            TradePlan).strike| ≤
        |s - ({ type := "option", action := "sell", symbol := "AAPL",
                quantity := 1, strike := 97, expiry := "250620" } :
              TradePlan).strike| :=
  c1_closest_strike
    ⟨fun _ => Except.ok (QuoteResults.single ⟨some 100, none, none, none⟩),
     fun _ => Except.ok (some [⟨"2025-06-20", "calls", 95, 2⟩])⟩
    { type := "option", action := "sell", symbol := "AAPL", quantity := 1,
      strike := 97, expiry := "250620" }
    { type := "option", action := "sell", symbol := "AAPL", quantity := 1,
      strike := 95, expiry := "250620", current_stock_price := some 100,
      option_price := some 2 }
    (by decide) rfl

/-- C3 counterexample: with chain expiries 2024-06-19 and 2025-06-20
and target 240620 (2024-06-20), the code selects 2025-06-20 — the first
expiry at or after the target — even though 2024-06-19 is strictly
nearer to the target. -/
theorem c3_counterexample :
    validate_and_enrich_trade_plan
      ⟨fun _ => Except.ok (QuoteResults.single ⟨some 100, none, none, none⟩),
       fun _ => Except.ok (some
         [⟨"2024-06-19", "calls", 95, 1⟩, ⟨"2025-06-20", "calls", 95, 1⟩])⟩
      { type := "option", action := "sell", symbol := "SPY", quantity := 1,
        strike := 95, expiry := "240620" } =
      Except.ok
        { type := "option", action := "sell", symbol := "SPY", quantity := 1,
          strike := 95, expiry := "250620",
          current_stock_price := some 100, option_price := some 1 } ∧
    "2024-06-19" ∈
      ([⟨"2024-06-19", "calls", 95, 1⟩,
        ⟨"2025-06-20", "calls", 95, 1⟩] : List ChainRow).map
        (fun r => r.expiration) ∧
    dateDistYYMMDD "240619" "240620" < dateDistYYMMDD "250620" "240620" :=
  ⟨rfl, by decide, by decide⟩

/-- C3 (amended): when the requested expiry does not occur in the
chain, `validate_and_enrich_trade_plan` (through `resolveExpiry`)
selects the earliest chain expiry at or after the target in
`YYYY-MM-DD` string order — not the nearest expiry — and raises an
error exactly when no chain expiry is at or after the target. -/
theorem c3_expiry_resolution (rows : List ChainRow) (tf : String)
    (hmiss : (rows.filter (fun r => r.expiration == tf)).isEmpty = true) :
    (∀ e, resolveExpiry rows tf = Except.ok e →
      e ∈ rows.map (fun r => r.expiration) ∧ pyStrLe tf e ∧
      ∀ e2 ∈ rows.map (fun r => r.expiration), pyStrLe tf e2 →
        pyStrLe e e2) ∧
    ((∃ msg, resolveExpiry rows tf = Except.error msg) ↔
      ∀ e2 ∈ rows.map (fun r => r.expiration), ¬ pyStrLe tf e2) ∧
    (∀ env plan plan', plan.type ≠ "stock" →
      validate_and_enrich_trade_plan env plan = Except.ok plan' →
      ∃ od tf2, get_option_chain (env.chain plan.symbol) = some od ∧
        resolveExpiry od.chain (targetExpiryFull plan.expiry) =
          Except.ok tf2 ∧
        plan'.expiry = newExpiryOf tf2) := by
  obtain ⟨h1, h2⟩ := resolveExpiry_spec rows tf hmiss
  refine ⟨h1, h2, ?_⟩
  intro env plan plan' hs hok
  obtain ⟨cp, od, tf2, closest, r, rest, hcp, hod, htf, hmin, hfilter, hplan⟩ :=
    validate_option_ok_parts env plan plan' hs hok
  exact ⟨od, tf2, hod, htf, by rw [hplan]⟩

/-- Witness for C3 (amended): the resolved expiry 2025-06-20 is in the
chain, is at or after the target, and is the least such. -/
theorem c3_expiry_resolution_witness :
    "2025-06-20" ∈
      ([⟨"2024-06-19", "calls", 95, 1⟩,
        ⟨"2025-06-20", "calls", 95, 1⟩] : List ChainRow).map
        (fun r => r.expiration) ∧
    pyStrLe "2024-06-20" "2025-06-20" ∧
    ∀ e2 ∈ ([⟨"2024-06-19", "calls", 95, 1⟩,
        ⟨"2025-06-20", "calls", 95, 1⟩] : List ChainRow).map
        (fun r => r.expiration),
      pyStrLe "2024-06-20" e2 → pyStrLe "2025-06-20" e2 :=
  (c3_expiry_resolution
    [⟨"2024-06-19", "calls", 95, 1⟩, ⟨"2025-06-20", "calls", 95, 1⟩]
    "2024-06-20" (by decide)).1 "2025-06-20" rfl

/-- C10: `parse_trading_command` is case-insensitive — its result on any
text equals its result on the lowercased text, because every pattern is
matched against `text.lower()` (and lowercasing is idempotent). -/
theorem c10_parse_case_insensitive (text : String) :
    parse_trading_command text = parse_trading_command (pyLower text) := by
  unfold parse_trading_command
  rw [pyLower_idem]

theorem tailSeg_refl (l : List Char) : TailSeg l l := ⟨[], rfl⟩

theorem tailSeg_trans {a b c : List Char} (h1 : TailSeg a b)
    (h2 : TailSeg b c) : TailSeg a c := by
  obtain ⟨p1, h1⟩ := h1
  obtain ⟨p2, h2⟩ := h2
  exact ⟨p2 ++ p1, by rw [h2, h1, List.append_assoc]⟩

theorem subSeg_of_tailSeg {a b c : List Char} (h1 : SubSeg a b)
    (h2 : TailSeg b c) : SubSeg a c := by
  obtain ⟨pre, post, h1⟩ := h1
  obtain ⟨p2, h2⟩ := h2
  exact ⟨p2 ++ pre, post, by rw [h2, h1]; simp [List.append_assoc]⟩

theorem take_le_takeWhile_all (p : Char → Bool) :
    ∀ (s : List Char) (k : Nat), k ≤ (s.takeWhile p).length →
      ∀ c ∈ s.take k, p c = true := by
  intro s
  induction s with
  | nil => simp
  | cons a t ih =>
    intro k hk c hc
    cases k with
    | zero => simp at hc
    | succ k =>
      by_cases hp : p a
      · rw [List.takeWhile_cons_of_pos hp] at hk
        simp only [List.length_cons, Nat.succ_le_succ_iff] at hk
        rw [List.take_succ_cons] at hc
        rcases List.mem_cons.mp hc with h | h
        · subst h
          exact hp
        · exact ih k hk c h
      · rw [List.takeWhile_cons_of_neg hp] at hk
        simp at hk

theorem takeWhile_length_le (p : Char → Bool) (s : List Char) :
    (s.takeWhile p).length ≤ s.length :=
  List.Sublist.length_le (List.takeWhile_sublist p)

theorem mem_pyStripL {c : Char} {l : List Char} (h : c ∈ pyStripL l) :
    c ∈ l := by
  unfold pyStripL at h
  rw [List.mem_reverse] at h
  have h2 := (List.dropWhile_sublist _).subset h
  rw [List.mem_reverse] at h2
  exact (List.dropWhile_sublist _).subset h2

theorem lookup_mem_values {α β : Type} [BEq α] [LawfulBEq α]
    (l : List (α × β)) (k : α) (v : β) (h : l.lookup k = some v) :
    v ∈ l.map Prod.snd := by
  induction l with
  | nil => simp [List.lookup] at h
  | cons kv t ih =>
    rw [List.lookup_cons] at h
    split at h
    · injection h with h
      subst h
      exact List.mem_map_of_mem Prod.snd (List.mem_cons_self _ _)
    · exact List.mem_cons_of_mem _ (ih h)

theorem digit_pyToLower_fixed {c : Char}
    (h : isDigitChar (pyToLower c) = true) : pyToLower c = c := by
  unfold isDigitChar at h
  simp only [toNat_pyToLower, Bool.and_eq_true, decide_eq_true_eq] at h
  have hfix : lowerN c.toNat = c.toNat := by
    by_cases hP : 65 ≤ c.toNat ∧ c.toNat ≤ 90
    · exfalso
      unfold lowerN at h
      rw [if_pos hP] at h
      omega
    · unfold lowerN
      rw [if_neg hP]
  show Char.ofNat (lowerN c.toNat) = c
  rw [hfix, Char.ofNat_toNat]

theorem subSeg_digits_unlower {ds l : List Char}
    (hd : ∀ c ∈ ds, isDigitChar c = true)
    (h : SubSeg ds (l.map pyToLower)) : SubSeg ds l := by
  obtain ⟨pre, post, heq⟩ := h
  obtain ⟨l12, l4, hl, hm12, hm4⟩ := List.map_eq_append_iff.mp heq
  obtain ⟨l1, l3, hl2, hm1, hm3⟩ := List.map_eq_append_iff.mp hm12
  have hfix : ∀ c ∈ l3, pyToLower c = c := by
    intro c hc
    refine digit_pyToLower_fixed (hd _ ?_)
    rw [← hm3]
    exact List.mem_map_of_mem pyToLower hc
  have hl3 : l3 = ds := by
    rw [← hm3]
    conv_lhs => rw [← List.map_id l3]
    exact (List.map_congr_left fun c hc => (hfix c hc).symm)
  exact ⟨l1, l4, by rw [hl, hl2, hl3]⟩

theorem run_capSpec (r : RE) :
    ∀ (s : List Char) (cr : List (Nat × List Char) × List Char),
      cr ∈ r.run s → ∀ j cs, (j, cs) ∈ cr.1 → r.CapSpec j cs := by
  induction r with
  | lit l =>
    intro s cr h j cs hm
    simp only [RE.run] at h
    split at h
    · simp only [List.mem_singleton] at h
      subst h
      simp at hm
    · simp at h
  | plus p =>
    intro s cr h j cs hm
    simp only [RE.run, List.mem_map] at h
    obtain ⟨k, _, hk⟩ := h
    subst hk
    simp at hm
  | cgroup i p =>
    intro s cr h j cs hm
    simp only [RE.run, List.mem_map, List.mem_range] at h
    obtain ⟨k, hkmem, hk⟩ := h
    subst hk
    simp only [List.mem_singleton, Prod.mk.injEq] at hm
    obtain ⟨hj, hcs⟩ := hm
    have hlen : (s.takeWhile p).length ≤ s.length := takeWhile_length_le p s
    have hpos : 1 ≤ (s.takeWhile p).length - k := by omega
    refine ⟨hj.symm, ?_, ?_⟩
    · subst hcs
      have : (s.take ((s.takeWhile p).length - k)).length =
          min ((s.takeWhile p).length - k) s.length := List.length_take _ _
      intro hnil
      rw [hnil] at this
      simp only [List.length_nil] at this
      omega
    · subst hcs
      exact take_le_takeWhile_all p s _ (by omega)
  | opt r ih =>
    intro s cr h j cs hm
    simp only [RE.run, List.mem_append] at h
    rcases h with h | h
    · exact ih s cr h j cs hm
    · simp only [List.mem_singleton] at h
      subst h
      simp at hm
  | alt r1 r2 ih1 ih2 =>
    intro s cr h j cs hm
    simp only [RE.run, List.mem_append] at h
    rcases h with h | h
    · exact Or.inl (ih1 s cr h j cs hm)
    · exact Or.inr (ih2 s cr h j cs hm)
  | cat r1 r2 ih1 ih2 =>
    intro s cr h j cs hm
    simp only [RE.run, List.mem_flatMap, List.mem_map] at h
    obtain ⟨cr1, h1, cr2, h2, hk⟩ := h
    subst hk
    rcases List.mem_append.mp hm with hm | hm
    · exact Or.inl (ih1 s cr1 h1 j cs hm)
    · exact Or.inr (ih2 cr1.2 cr2 h2 j cs hm)

theorem run_rest_tailSeg (r : RE) :
    ∀ (s : List Char) (cr : List (Nat × List Char) × List Char),
      cr ∈ r.run s → TailSeg cr.2 s := by
  induction r with
  | lit l =>
    intro s cr h
    simp only [RE.run] at h
    split at h
    · simp only [List.mem_singleton] at h
      subst h
      exact ⟨s.take l.length, (List.take_append_drop _ _).symm⟩
    · simp at h
  | plus p =>
    intro s cr h
    simp only [RE.run, List.mem_map] at h
    obtain ⟨k, _, hk⟩ := h
    subst hk
    exact ⟨s.take _, (List.take_append_drop _ _).symm⟩
  | cgroup i p =>
    intro s cr h
    simp only [RE.run, List.mem_map] at h
    obtain ⟨k, _, hk⟩ := h
    subst hk
    exact ⟨s.take _, (List.take_append_drop _ _).symm⟩
  | opt r ih =>
    intro s cr h
    simp only [RE.run, List.mem_append] at h
    rcases h with h | h
    · exact ih s cr h
    · simp only [List.mem_singleton] at h
      subst h
      exact tailSeg_refl s
  | alt r1 r2 ih1 ih2 =>
    intro s cr h
    simp only [RE.run, List.mem_append] at h
    rcases h with h | h
    · exact ih1 s cr h
    · exact ih2 s cr h
  | cat r1 r2 ih1 ih2 =>
    intro s cr h
    simp only [RE.run, List.mem_flatMap, List.mem_map] at h
    obtain ⟨cr1, h1, cr2, h2, hk⟩ := h
    subst hk
    exact tailSeg_trans (ih2 cr1.2 cr2 h2) (ih1 s cr1 h1)

theorem run_caps_subSeg (r : RE) :
    ∀ (s : List Char) (cr : List (Nat × List Char) × List Char),
      cr ∈ r.run s → ∀ j cs, (j, cs) ∈ cr.1 → SubSeg cs s := by
  induction r with
  | lit l =>
    intro s cr h j cs hm
    simp only [RE.run] at h
    split at h
    · simp only [List.mem_singleton] at h
      subst h
      simp at hm
    · simp at h
  | plus p =>
    intro s cr h j cs hm
    simp only [RE.run, List.mem_map] at h
    obtain ⟨k, _, hk⟩ := h
    subst hk
    simp at hm
  | cgroup i p =>
    intro s cr h j cs hm
    simp only [RE.run, List.mem_map] at h
    obtain ⟨k, _, hk⟩ := h
    subst hk
    simp only [List.mem_singleton, Prod.mk.injEq] at hm
    obtain ⟨_, hcs⟩ := hm
    subst hcs
    refine ⟨[], s.drop ((s.takeWhile p).length - k), ?_⟩
    rw [List.nil_append]
    exact (List.take_append_drop _ _).symm
  | opt r ih =>
    intro s cr h j cs hm
    simp only [RE.run, List.mem_append] at h
    rcases h with h | h
    · exact ih s cr h j cs hm
    · simp only [List.mem_singleton] at h
      subst h
      simp at hm
  | alt r1 r2 ih1 ih2 =>
    intro s cr h j cs hm
    simp only [RE.run, List.mem_append] at h
    rcases h with h | h
    · exact ih1 s cr h j cs hm
    · exact ih2 s cr h j cs hm
  | cat r1 r2 ih1 ih2 =>
    intro s cr h j cs hm
    simp only [RE.run, List.mem_flatMap, List.mem_map] at h
    obtain ⟨cr1, h1, cr2, h2, hk⟩ := h
    subst hk
    rcases List.mem_append.mp hm with hm | hm
    · exact ih1 s cr1 h1 j cs hm
    · exact subSeg_of_tailSeg (ih2 cr1.2 cr2 h2 j cs hm)
        (run_rest_tailSeg r1 s cr1 h1)

theorem search_some_run (r : RE) :
    ∀ (s : List Char) (caps : List (Nat × List Char)),
      r.search s = some caps →
      ∃ s1 cr, TailSeg s1 s ∧ cr ∈ r.run s1 ∧ cr.1 = caps := by
  intro s
  induction s with
  | nil =>
    intro caps h
    simp only [RE.search] at h
    split at h
    · rename_i cr rest heq
      injection h with h
      exact ⟨[], cr, tailSeg_refl [],
        by rw [heq]; exact List.mem_cons_self _ _, h⟩
    · cases h
  | cons c t ih =>
    intro caps h
    simp only [RE.search] at h
    split at h
    · rename_i cr rest heq
      injection h with h
      exact ⟨c :: t, cr, tailSeg_refl _,
        by rw [heq]; exact List.mem_cons_self _ _, h⟩
    · obtain ⟨s1, cr, htail, hmem, hcaps⟩ := ih caps h
      obtain ⟨p, hp⟩ := htail
      exact ⟨s1, cr, ⟨c :: p, by rw [hp]; rfl⟩, hmem, hcaps⟩

theorem capSpec_words : ∀ (ws : List String) (j : Nat) (cs : List Char),
    (reWords ws).CapSpec j cs → False
  | [], j, cs => by
    intro h
    simp only [reWords, RE.CapSpec] at h
  | [w], j, cs => by
    intro h
    simp only [reWords, RE.CapSpec] at h
  | w :: w2 :: rest, j, cs => by
    intro h
    simp only [reWords, RE.CapSpec] at h
    rcases h with h | h
    · exact h
    · exact capSpec_words (w2 :: rest) j cs h

theorem capSpec_shareOf (j : Nat) (cs : List Char)
    (h : reShareOf.CapSpec j cs) : False := by
  simp only [reShareOf, reSeq, List.foldr, reWs, RE.CapSpec, or_self,
    false_or, or_false] at h

theorem capSpec_trailShares (j : Nat) (cs : List Char)
    (h : reTrailShares.CapSpec j cs) : False := by
  simp only [reTrailShares, reSeq, List.foldr, reWs, RE.CapSpec, or_self,
    false_or, or_false] at h

theorem capSpec_pattern1 (head : RE)
    (hhead : ∀ j cs, head.CapSpec j cs → False) (j : Nat) (cs : List Char)
    (h : (rePattern1 head).CapSpec j cs) :
    (j = 1 ∧ cs ≠ [] ∧ ∀ c ∈ cs, isDigitChar c = true) ∨
    (j = 2 ∧ cs ≠ [] ∧ ∀ c ∈ cs, isAlphaChar c = true) := by
  simp only [rePattern1, reSeq, List.foldr, reWs, RE.CapSpec, false_or,
    or_false] at h
  rcases h with h | h | h
  · exact absurd h (fun hh => hhead j cs hh)
  · exact Or.inl ⟨h.1.symm, h.2⟩
  · exact Or.inr ⟨h.1.symm, h.2⟩

theorem capSpec_pattern2 (head : RE)
    (hhead : ∀ j cs, head.CapSpec j cs → False) (j : Nat) (cs : List Char)
    (h : (rePattern2 head).CapSpec j cs) :
    (j = 1 ∧ cs ≠ [] ∧ ∀ c ∈ cs, isAlphaChar c = true) ∨
    (j = 2 ∧ cs ≠ [] ∧ ∀ c ∈ cs, isDigitChar c = true) := by
  simp only [rePattern2, reSeq, List.foldr, reWs, RE.CapSpec, false_or,
    or_false] at h
  rcases h with h | h | h
  · exact absurd h (fun hh => hhead j cs hh)
  · exact Or.inl ⟨h.1.symm, h.2⟩
  · exact Or.inr ⟨h.1.symm, h.2⟩

theorem tryPattern_some (r : RE) (act : String) (low : List Char)
    (out : String × String × Nat) (h : tryPattern r act low = some out) :
    ∃ caps, r.search low = some caps ∧ applyGroups act caps = some out := by
  unfold tryPattern at h
  cases hs : r.search low with
  | none =>
    rw [hs] at h
    cases h
  | some caps =>
    rw [hs] at h
    exact ⟨caps, rfl, h⟩

theorem capLookup_mem (caps : List (Nat × List Char)) (i : Nat)
    (g : List Char) (h : capLookup caps i = some g) : (i, g) ∈ caps := by
  unfold capLookup at h
  cases hf : caps.find? (fun c => c.1 == i) with
  | none =>
    rw [hf] at h
    cases h
  | some pr =>
    rw [hf] at h
    injection h with h
    have hp := List.find?_some hf
    have hm := List.mem_of_find?_eq_some hf
    have h1 : pr.1 = i := by simpa using hp
    have : pr = (i, g) := by
      cases pr
      simp only [Prod.mk.injEq]
      exact ⟨h1, h⟩
    rw [← this]
    exact hm

theorem applyGroups_some (act : String) (caps : List (Nat × List Char))
    (out : String × String × Nat) (h : applyGroups act caps = some out) :
    ∃ g1 g2, capLookup caps 1 = some g1 ∧ capLookup caps 2 = some g2 ∧
      out = (act,
        (company_to_ticker.lookup
          (pyLower (pyStrip
            ⟨(if isDigitStr g1 then (g1, g2) else (g2, g1)).2⟩))).getD
          (pyUpper (pyLower (pyStrip
            ⟨(if isDigitStr g1 then (g1, g2) else (g2, g1)).2⟩))),
        natOfDigits (if isDigitStr g1 then (g1, g2) else (g2, g1)).1) := by
  unfold applyGroups at h
  cases h1 : capLookup caps 1 with
  | none =>
    rw [h1] at h
    cases h
  | some g1 =>
    cases h2 : capLookup caps 2 with
    | none =>
      rw [h1, h2] at h
      cases h
    | some g2 =>
      rw [h1, h2] at h
      injection h with h
      exact ⟨g1, g2, rfl, rfl, h.symm⟩

theorem isDigitStr_of_digits {l : List Char} (hne : l ≠ [])
    (hd : ∀ c ∈ l, isDigitChar c = true) : isDigitStr l = true := by
  unfold isDigitStr
  simp only [Bool.and_eq_true, Bool.not_eq_true']
  constructor
  · cases l
    · exact absurd rfl hne
    · rfl
  · exact List.all_eq_true.mpr hd

theorem not_isDigitStr_of_alpha {l : List Char} (hne : l ≠ [])
    (ha : ∀ c ∈ l, isAlphaChar c = true) : isDigitStr l = false := by
  cases l with
  | nil => exact absurd rfl hne
  | cons c t =>
    unfold isDigitStr
    have hc : isDigitChar c = false :=
      alpha_not_digit c (ha c (List.mem_cons_self _ _))
    simp [hc]

theorem pattern1_case (head : RE)
    (hhead : ∀ j cs, head.CapSpec j cs → False) (act : String)
    (low : List Char) (a s : String) (q : Nat)
    (h : tryPattern (rePattern1 head) act low = some (a, s, q)) :
    a = act ∧ ∃ gq gsym,
      gq ≠ [] ∧ (∀ c ∈ gq, isDigitChar c = true) ∧
      (∀ c ∈ gsym, isAlphaChar c = true) ∧
      SubSeg gq low ∧ q = natOfDigits gq ∧
      s = (company_to_ticker.lookup (pyLower (pyStrip ⟨gsym⟩))).getD
            (pyUpper (pyLower (pyStrip ⟨gsym⟩))) := by
  obtain ⟨caps, hsearch, happ⟩ := tryPattern_some _ _ _ _ h
  obtain ⟨g1, g2, h1, h2, hout⟩ := applyGroups_some _ _ _ happ
  obtain ⟨s1, cr, htail, hrun, hcaps⟩ := search_some_run _ _ _ hsearch
  have hm1 : (1, g1) ∈ cr.1 := hcaps ▸ capLookup_mem _ _ _ h1
  have hm2 : (2, g2) ∈ cr.1 := hcaps ▸ capLookup_mem _ _ _ h2
  have spec1 := run_capSpec _ _ _ hrun 1 g1 hm1
  have spec2 := run_capSpec _ _ _ hrun 2 g2 hm2
  have hg1 : g1 ≠ [] ∧ ∀ c ∈ g1, isDigitChar c = true := by
    rcases capSpec_pattern1 head hhead 1 g1 spec1 with h | h
    · exact h.2
    · exact absurd h.1 (by decide)
  have hg2 : g2 ≠ [] ∧ ∀ c ∈ g2, isAlphaChar c = true := by
    rcases capSpec_pattern1 head hhead 2 g2 spec2 with h | h
    · exact absurd h.1 (by decide)
    · exact h.2
  have hdig : isDigitStr g1 = true := isDigitStr_of_digits hg1.1 hg1.2
  rw [hdig] at hout
  rw [if_pos rfl] at hout
  have hsub : SubSeg g1 low :=
    subSeg_of_tailSeg (run_caps_subSeg _ _ _ hrun 1 g1 hm1) htail
  obtain ⟨ha, hs, hq⟩ : a = act ∧
      s = (company_to_ticker.lookup (pyLower (pyStrip ⟨g2⟩))).getD
        (pyUpper (pyLower (pyStrip ⟨g2⟩))) ∧ q = natOfDigits g1 := by
    have := hout
    injection this with ha hrest
    injection hrest with hs hq
    exact ⟨ha, hs, hq⟩
  exact ⟨ha, g1, g2, hg1.1, hg1.2, hg2.2, hsub, hq, hs⟩

theorem pattern2_case (head : RE)
    (hhead : ∀ j cs, head.CapSpec j cs → False) (act : String)
    (low : List Char) (a s : String) (q : Nat)
    (h : tryPattern (rePattern2 head) act low = some (a, s, q)) :
    a = act ∧ ∃ gq gsym,
      gq ≠ [] ∧ (∀ c ∈ gq, isDigitChar c = true) ∧
      (∀ c ∈ gsym, isAlphaChar c = true) ∧
      SubSeg gq low ∧ q = natOfDigits gq ∧
      s = (company_to_ticker.lookup (pyLower (pyStrip ⟨gsym⟩))).getD
            (pyUpper (pyLower (pyStrip ⟨gsym⟩))) := by
  obtain ⟨caps, hsearch, happ⟩ := tryPattern_some _ _ _ _ h
  obtain ⟨g1, g2, h1, h2, hout⟩ := applyGroups_some _ _ _ happ
  obtain ⟨s1, cr, htail, hrun, hcaps⟩ := search_some_run _ _ _ hsearch
  have hm1 : (1, g1) ∈ cr.1 := hcaps ▸ capLookup_mem _ _ _ h1
  have hm2 : (2, g2) ∈ cr.1 := hcaps ▸ capLookup_mem _ _ _ h2
  have spec1 := run_capSpec _ _ _ hrun 1 g1 hm1
  have spec2 := run_capSpec _ _ _ hrun 2 g2 hm2
  have hg1 : g1 ≠ [] ∧ ∀ c ∈ g1, isAlphaChar c = true := by
    rcases capSpec_pattern2 head hhead 1 g1 spec1 with h | h
    · exact h.2
    · exact absurd h.1 (by decide)
  have hg2 : g2 ≠ [] ∧ ∀ c ∈ g2, isDigitChar c = true := by
    rcases capSpec_pattern2 head hhead 2 g2 spec2 with h | h
    · exact absurd h.1 (by decide)
    · exact h.2
  have hdig : isDigitStr g1 = false := not_isDigitStr_of_alpha hg1.1 hg1.2
  rw [hdig] at hout
  rw [if_neg (by simp)] at hout
  have hsub : SubSeg g2 low :=
    subSeg_of_tailSeg (run_caps_subSeg _ _ _ hrun 2 g2 hm2) htail
  obtain ⟨ha, hs, hq⟩ : a = act ∧
      s = (company_to_ticker.lookup (pyLower (pyStrip ⟨g1⟩))).getD
        (pyUpper (pyLower (pyStrip ⟨g1⟩))) ∧ q = natOfDigits g2 := by
    have := hout
    injection this with ha hrest
    injection hrest with hs hq
    exact ⟨ha, hs, hq⟩
  exact ⟨ha, g2, g1, hg2.1, hg2.2, hg1.2, hsub, hq, hs⟩

theorem parse_analysis (text : String) (a s : String) (q : Nat)
    (h : parse_trading_command text = some (a, s, q)) :
    (a = "buy" ∨ a = "sell") ∧ ∃ gq gsym,
      gq ≠ [] ∧ (∀ c ∈ gq, isDigitChar c = true) ∧
      (∀ c ∈ gsym, isAlphaChar c = true) ∧
      SubSeg gq (pyLower text).data ∧ q = natOfDigits gq ∧
      s = (company_to_ticker.lookup (pyLower (pyStrip ⟨gsym⟩))).getD
            (pyUpper (pyLower (pyStrip ⟨gsym⟩))) := by
  have hbuy : ∀ j cs, reBuyHead.CapSpec j cs → False :=
    fun j cs => capSpec_words ["buy", "purchase", "long"] j cs
  have hsell : ∀ j cs, reSellHead.CapSpec j cs → False :=
    fun j cs => capSpec_words ["sell", "short"] j cs
  unfold parse_trading_command parseOnLower at h
  split at h
  · rename_i r heq
    injection h with h
    subst h
    obtain ⟨ha, rest⟩ := pattern1_case reBuyHead hbuy "buy" _ a s q heq
    exact ⟨Or.inl ha, rest⟩
  · split at h
    · rename_i r heq
      injection h with h
      subst h
      obtain ⟨ha, rest⟩ := pattern2_case reBuyHead hbuy "buy" _ a s q heq
      exact ⟨Or.inl ha, rest⟩
    · split at h
      · rename_i r heq
        injection h with h
        subst h
        obtain ⟨ha, rest⟩ := pattern1_case reSellHead hsell "sell" _ a s q heq
        exact ⟨Or.inr ha, rest⟩
      · obtain ⟨ha, rest⟩ := pattern2_case reSellHead hsell "sell" _ a s q h
        exact ⟨Or.inr ha, rest⟩

/-- C9: whenever `parse_trading_command` returns `(action, symbol,
quantity)`, the action is `"buy"` or `"sell"`, the symbol consists only
of uppercase letters (a ticker from the company map or the matched word
uppercased), and the quantity is the value of a nonempty digit sequence
occurring in the text. -/
theorem c9_parse_result_wellformed (text a s : String) (q : Nat)
    (h : parse_trading_command text = some (a, s, q)) :
    (a = "buy" ∨ a = "sell") ∧
    (∀ c ∈ s.data, c ∈ upperAlphabet) ∧
    ∃ ds, ds ≠ [] ∧ (∀ c ∈ ds, isDigitChar c = true) ∧
      SubSeg ds text.data ∧ q = natOfDigits ds := by
  obtain ⟨hab, gq, gsym, hne, hdig, halpha, hsub, hq, hs⟩ :=
    parse_analysis text a s q h
  refine ⟨hab, ?_, gq, hne, hdig, ?_, hq⟩
  · rw [hs]
    cases hl : company_to_ticker.lookup (pyLower (pyStrip ⟨gsym⟩)) with
    | some v =>
      rw [Option.getD_some]
      intro c hc
      have hv := lookup_mem_values company_to_ticker _ v hl
      have hall : ∀ v ∈ company_to_ticker.map Prod.snd,
          ∀ c ∈ v.data, c ∈ upperAlphabet := by decide
      exact hall v hv c hc
    | none =>
      rw [Option.getD_none]
      intro c hc
      have hdata : (pyUpper (pyLower (pyStrip ⟨gsym⟩))).data =
          ((pyStripL gsym).map pyToLower).map pyToUpper := rfl
      rw [hdata] at hc
      obtain ⟨c1, hc1, rfl⟩ := List.mem_map.mp hc
      obtain ⟨c0, hc0, rfl⟩ := List.mem_map.mp hc1
      exact alpha_upper_lower_mem c0 (halpha c0 (mem_pyStripL hc0))
  · refine subSeg_digits_unlower hdig ?_
    have hdata : (pyLower text).data = text.data.map pyToLower := rfl
    rw [← hdata]
    exact hsub

/-- Witness for C9 at `"buy 2 shares of apple"`: action `buy`, symbol
`AAPL` (all uppercase), quantity 2 from a digit sequence of the text. -/
theorem c9_parse_result_wellformed_witness :
    (("buy" : String) = "buy" ∨ ("buy" : String) = "sell") ∧
    (∀ c ∈ ("AAPL" : String).data, c ∈ upperAlphabet) ∧
    ∃ ds, ds ≠ [] ∧ (∀ c ∈ ds, isDigitChar c = true) ∧
      SubSeg ds ("buy 2 shares of apple" : String).data ∧
      2 = natOfDigits ds :=
  c9_parse_result_wellformed "buy 2 shares of apple" "buy" "AAPL" 2
    (by decide)
